import Mathlib

/-!
Verification of the AgarMMO server core against its specification.

The definitions below are a shallow embedding of the Python sources:
  * `src/shared/packets.py`            — the packet codec (tagged-union wire format)
  * `src/shared/entities/player.py`    — Player geometry, growth, movement, collision
  * `src/shared/entities/food.py`      — Food items
  * `src/server/game_manager.py`       — collision resolution, eating, skills, food respawn,
                                         boundary clamping, spawn selection
  * `src/server/client_handler.py`     — session cleanup
  * `src/server/network_manager.py`    — the per-tick food replenishment step

Python floats are modelled as rationals (`ℚ`).  Where the source computes
`math.sqrt(...)` and only *compares* the result, the comparison is decided
exactly over `ℚ` by helper predicates (`sqrt_lt`, `sqrt_le`, `sqrt_add_le`)
whose agreement with `Real.sqrt` is proved once and for all.  Where the source
feeds the square root into arithmetic (the push/pull force formulas), the
embedding takes the distance `d` as an explicit argument and the theorems carry
the hypotheses `0 ≤ d` and `d ^ 2 = dx ^ 2 + dy ^ 2` that characterise it.
Configuration constants (loaded from YAML at runtime, not part of the sources)
are explicit parameters throughout.
-/

/-! ## JSON values

Python's `json.loads` produces `None`, booleans, numbers, strings, lists and
dicts; `JVal` mirrors that universe (numbers as `ℚ`).  A decoded JSON object is
a key/value list (`json.loads` deduplicates keys, so the theorems only ever use
dicts with distinct keys). -/

inductive JVal : Type where
  | jnull : JVal
  | jbool : Bool → JVal
  | jnum : ℚ → JVal
  | jstr : String → JVal
  | jarr : List JVal → JVal
  | jobj : List (String × JVal) → JVal
  deriving Repr

/-- Truthiness of a JSON value under Python's `if not packet_type:` test:
`None`, `False`, `0`, `""`, `[]` and `{}` are falsy. -/
def JVal.falsy : JVal → Bool
  | .jnull => true
  | .jbool b => !b
  | .jnum q => decide (q = 0)
  | .jstr s => s.isEmpty
  | .jarr l => l.isEmpty
  | .jobj l => l.isEmpty

/-- Removal of a key from a decoded JSON object, as `dict.pop` leaves the dict
(the popped value itself is obtained with `List.lookup`). -/
def popKey (k : String) (d : List (String × JVal)) : List (String × JVal) :=
  d.filter fun kv => kv.1 != k

/-! ## Packet codec (`src/shared/packets.py`)

Each dataclass is a constructor.  Python dataclasses do not check the annotated
field types (`ConnectPacket(name=5)` succeeds), so every field is a `JVal`. -/

inductive Packet : Type where
  | ConnectPacket (name : JVal)
  | MovePacket (dx dy : JVal)
  | SkillPacket (skill_name : JVal)
  | GetGameStatePacket
  | PlayerIdPacket (player_id : JVal)
  | GameStatePacket (balls players game_time : JVal)
  | UsernameTakenPacket (message : JVal)
  | ServerFullPacket (message : JVal)
  | PingPacket
  | PongPacket
  deriving Repr

/-- Exception classes that `Packet.from_json` can let escape, line by line:
`keyError` from `data.pop('type')` on a dict without the key; `valueError`
from the two explicit `raise ValueError` statements (falsy tag, unknown tag);
`typeError` from a dataclass constructor whose keyword arguments do not match
its fields, or from `list.pop('type')`; `attributeError` from calling `.pop`
on a JSON scalar; `jsonDecodeError` (a `ValueError` subclass) from
`json.loads` on malformed input. -/
inductive PyErr : Type where
  | keyError
  | valueError
  | typeError
  | attributeError
  | jsonDecodeError
  deriving Repr, DecidableEq

/-- Embeds `Packet.to_dict` (packets.py lines 11-16): `asdict(self)` lists the
dataclass fields in declaration order, then `data['type'] = self.type` appends
the class tag. -/
def Packet.to_dict : Packet → List (String × JVal)
  | .ConnectPacket name => [("name", name), ("type", .jstr "connect")]
  | .MovePacket dx dy => [("dx", dx), ("dy", dy), ("type", .jstr "move")]
  | .SkillPacket skill_name => [("skill_name", skill_name), ("type", .jstr "skill")]
  | .GetGameStatePacket => [("type", .jstr "get_game_state")]
  | .PlayerIdPacket player_id => [("player_id", player_id), ("type", .jstr "player_id")]
  | .GameStatePacket balls players game_time =>
      [("balls", balls), ("players", players), ("game_time", game_time),
       ("type", .jstr "game_state")]
  | .UsernameTakenPacket message => [("message", message), ("type", .jstr "username_taken")]
  | .ServerFullPacket message => [("message", message), ("type", .jstr "server_full")]
  | .PingPacket => [("type", .jstr "ping")]
  | .PongPacket => [("type", .jstr "pong")]

/-- Calls a one-field dataclass constructor with `**rest`: succeeds exactly
when the keyword arguments are precisely the named field. -/
def fields1 (k : String) (rest : List (String × JVal)) : Option JVal :=
  match rest.lookup k with
  | some v => if rest.length = 1 then some v else none
  | none => none

/-- Calls a two-field dataclass constructor with `**rest`. -/
def fields2 (k1 k2 : String) (rest : List (String × JVal)) : Option (JVal × JVal) :=
  match rest.lookup k1, rest.lookup k2 with
  | some v1, some v2 => if rest.length = 2 then some (v1, v2) else none
  | _, _ => none

/-- Calls a three-field dataclass constructor with `**rest`. -/
def fields3 (k1 k2 k3 : String) (rest : List (String × JVal)) :
    Option (JVal × JVal × JVal) :=
  match rest.lookup k1, rest.lookup k2, rest.lookup k3 with
  | some v1, some v2, some v3 => if rest.length = 3 then some (v1, v2, v3) else none
  | _, _, _ => none

/-- Embeds `Packet.from_json` (packets.py lines 21-51) after `json.loads`, on a
decoded JSON object.  Line by line: `data.pop('type')` raises `KeyError` when
the key is absent; `if not packet_type: raise ValueError(...)` rejects a falsy
tag; the `elif` chain dispatches on the tag string, each branch calling the
dataclass constructor with `**data` (a `TypeError` when the remaining keys are
not exactly the constructor's fields); the final `else` raises `ValueError` for
an unknown tag (a non-string tag compares unequal to every literal and lands
there too). -/
def Packet.from_dict (data : List (String × JVal)) : Except PyErr Packet :=
  match data.lookup "type" with
  | none => .error .keyError
  | some packet_type =>
    let rest := popKey "type" data
    if packet_type.falsy then .error .valueError
    else
      match packet_type with
      | .jstr s =>
        if s = "connect" then
          match fields1 "name" rest with
          | some v => .ok (.ConnectPacket v)
          | none => .error .typeError
        else if s = "move" then
          match fields2 "dx" "dy" rest with
          | some v => .ok (.MovePacket v.1 v.2)
          | none => .error .typeError
        else if s = "skill" then
          match fields1 "skill_name" rest with
          | some v => .ok (.SkillPacket v)
          | none => .error .typeError
        else if s = "get_game_state" then
          if rest.isEmpty then .ok .GetGameStatePacket else .error .typeError
        else if s = "player_id" then
          match fields1 "player_id" rest with
          | some v => .ok (.PlayerIdPacket v)
          | none => .error .typeError
        else if s = "game_state" then
          match fields3 "balls" "players" "game_time" rest with
          | some v => .ok (.GameStatePacket v.1 v.2.1 v.2.2)
          | none => .error .typeError
        else if s = "username_taken" then
          match fields1 "message" rest with
          | some v => .ok (.UsernameTakenPacket v)
          | none => .error .typeError
        else if s = "server_full" then
          match fields1 "message" rest with
          | some v => .ok (.ServerFullPacket v)
          | none => .error .typeError
        else if s = "ping" then
          if rest.isEmpty then .ok .PingPacket else .error .typeError
        else if s = "pong" then
          if rest.isEmpty then .ok .PongPacket else .error .typeError
        else .error .valueError
      | _ => .error .valueError

/-- Embeds the whole of `Packet.from_json` on an arbitrary input byte string:
`none` stands for bytes `json.loads` rejects (`json.JSONDecodeError`); a JSON
array makes `data.pop('type')` a `TypeError` (`list.pop` wants an integer); a
JSON scalar has no `.pop` method (`AttributeError`); a JSON object proceeds as
`Packet.from_dict`. -/
def Packet.from_json : Option JVal → Except PyErr Packet
  | none => .error .jsonDecodeError
  | some (.jobj d) => Packet.from_dict d
  | some (.jarr _) => .error .typeError
  | some _ => .error .attributeError

/-- Claim C1: for every packet variant and every combination of its field
values (zero and negative numbers and empty or long strings included), decoding
the encoding yields the original packet: `Packet.from_json(p.to_json()) == p`,
here stated at the JSON-object level common to `to_json` and `from_json`. -/
theorem packet_roundtrip (p : Packet) :
    Packet.from_json (some (.jobj p.to_dict)) = .ok p := by
  cases p <;> rfl

/-! ## Exact decisions of the source's square-root comparisons

The Python sources compute `distance = math.sqrt(sq)` and compare it.  Over
`ℚ` the comparisons are decided exactly by the predicates below; each is
certified against `Real.sqrt` once, unconditionally. -/

/-- Decides `math.sqrt sq < c`. -/
def sqrt_lt (sq c : ℚ) : Bool := decide (0 < c ∧ sq < c ^ 2)

/-- Decides `math.sqrt sq <= c`. -/
def sqrt_le (sq c : ℚ) : Bool := decide (0 ≤ c ∧ sq ≤ c ^ 2)

/-- Decides `math.sqrt sq + a <= b`. -/
def sqrt_add_le (sq a b : ℚ) : Bool := decide (a ≤ b ∧ sq ≤ (b - a) ^ 2)

theorem sqrt_lt_correct (sq c : ℚ) :
    sqrt_lt sq c = true ↔ Real.sqrt (sq : ℝ) < (c : ℝ) := by
  unfold sqrt_lt
  rw [decide_eq_true_iff]
  constructor
  · rintro ⟨hc, hlt⟩
    have hc' : (0 : ℝ) < (c : ℝ) := by exact_mod_cast hc
    rw [Real.sqrt_lt' hc']
    exact_mod_cast hlt
  · intro h
    have hc' : (0 : ℝ) < (c : ℝ) := lt_of_le_of_lt (Real.sqrt_nonneg _) h
    have hc : 0 < c := by exact_mod_cast hc'
    refine ⟨hc, ?_⟩
    rw [Real.sqrt_lt' hc'] at h
    exact_mod_cast h

theorem sqrt_le_correct (sq c : ℚ) :
    sqrt_le sq c = true ↔ Real.sqrt (sq : ℝ) ≤ (c : ℝ) := by
  unfold sqrt_le
  rw [decide_eq_true_iff, Real.sqrt_le_iff]
  constructor <;> rintro ⟨h1, h2⟩ <;>
    exact ⟨by exact_mod_cast h1, by exact_mod_cast h2⟩

theorem sqrt_add_le_correct (sq a b : ℚ) :
    sqrt_add_le sq a b = true ↔ Real.sqrt (sq : ℝ) + (a : ℝ) ≤ (b : ℝ) := by
  unfold sqrt_add_le
  rw [decide_eq_true_iff]
  have hiff : Real.sqrt (sq : ℝ) + (a : ℝ) ≤ (b : ℝ) ↔ Real.sqrt (sq : ℝ) ≤ ((b - a : ℚ) : ℝ) := by
    push_cast
    constructor <;> intro h <;> linarith
  rw [hiff, Real.sqrt_le_iff]
  constructor
  · rintro ⟨hab, hle⟩
    exact ⟨by exact_mod_cast sub_nonneg.mpr hab, by exact_mod_cast hle⟩
  · rintro ⟨hab, hle⟩
    refine ⟨?_, by exact_mod_cast hle⟩
    have h2 : (0 : ℚ) ≤ b - a := by exact_mod_cast hab
    linarith

/-! ## Entities (`src/shared/entities/player.py`, `food.py`) -/

/-- Embeds the fields of `Player` that the simulation engine reads or writes
(identity, rendering and survival-stat fields are carried by the Python object
but never enter the claims below). -/
structure Player where
  x : ℚ
  y : ℚ
  radius : ℚ
  score : ℚ
  birth_time : ℚ
  age : ℚ
  start_velocity : ℚ
  push_skill_active : Bool
  push_skill_end_time : ℚ
  pull_skill_active : Bool
  pull_skill_end_time : ℚ
  deriving Repr, DecidableEq

/-- Embeds `Food`: a fixed-radius circle (`food_cfg['radius']`) at a position. -/
structure Food where
  x : ℚ
  y : ℚ
  radius : ℚ
  deriving Repr, DecidableEq

/-- Embeds `Player.is_colliding` (player.py lines 93-111) on raw coordinates:
with `require_complete_overlap` the smaller circle must lie entirely inside the
larger (`distance + smaller.radius <= larger.radius`); without it the test is
simple overlap (`distance < self.radius + other.radius`). -/
def is_colliding_raw (sx sy sr ox oy goal_r : ℚ) (require_complete_overlap : Bool) : Bool :=
  let sq := (sx - ox) ^ 2 + (sy - oy) ^ 2
  if require_complete_overlap then
    if sr > goal_r then sqrt_add_le sq goal_r sr
    else sqrt_add_le sq sr goal_r
  else sqrt_lt sq (sr + goal_r)

/-- `Player.is_colliding` against another player. -/
def Player.is_colliding (p q : Player) (require_complete_overlap : Bool := true) : Bool :=
  is_colliding_raw p.x p.y p.radius q.x q.y q.radius require_complete_overlap

/-- `Player.is_colliding` against a food item. -/
def Player.is_colliding_food (p : Player) (b : Food) (require_complete_overlap : Bool := true) : Bool :=
  is_colliding_raw p.x p.y p.radius b.x b.y b.radius require_complete_overlap

/-- Embeds the growth-progress computation of `Player.update` (player.py line
76): `min(age / growth_duration, 1.0)`. -/
def growth_progress (growth_duration age : ℚ) : ℚ := min (age / growth_duration) 1

/-- Embeds the radius computation of `Player.update` (player.py lines 77-78):
`newborn + (adult - newborn) * growth_progress`. -/
def update_radius (newborn adult growth_duration age : ℚ) : ℚ :=
  newborn + (adult - newborn) * growth_progress growth_duration age

/-- Embeds `Player.update` (player.py lines 65-78): the age becomes
`time.time() - birth_time` and the radius is recomputed purely from it. -/
def Player.update (p : Player) (now newborn adult growth_duration : ℚ) : Player :=
  { p with age := now - p.birth_time,
           radius := update_radius newborn adult growth_duration (now - p.birth_time) }

/-- Embeds `Player.increase_score` (player.py lines 89-91). -/
def Player.increase_score (p : Player) (amount : ℚ) : Player :=
  { p with score := p.score + amount }

/-- Embeds `Player.move` (player.py lines 80-87): the direction is scaled by
`start_velocity` and the result clamped to
`[padding + radius, world - padding - radius]` on both axes. -/
def Player.move (p : Player) (dx dy world_w world_h padding : ℚ) : Player :=
  let new_x := p.x + dx * p.start_velocity
  let new_y := p.y + dy * p.start_velocity
  { p with x := max (padding + p.radius) (min new_x (world_w - padding - p.radius)),
           y := max (padding + p.radius) (min new_y (world_h - padding - p.radius)) }

/-! ## Game simulation engine (`src/server/game_manager.py`) -/

/-- Embeds the inner loop of `GameManager.check_collision` (game_manager.py
lines 42-49) for one player: walk `enumerate(balls)` from index `i`, skip
indices already in `balls_to_remove`, and on `player.is_colliding(ball)` (the
call site passes no flag, so the complete-containment default applies) add
`growth_amount` to the score and mark the index. -/
def scan_balls (growth : ℚ) : Player → ℕ → List ℕ → List Food → Player × List ℕ
  | p, _, removed, [] => (p, removed)
  | p, i, removed, ball :: rest =>
    if removed.contains i then scan_balls growth p (i + 1) removed rest
    else if p.is_colliding_food ball then
      scan_balls growth (p.increase_score growth) (i + 1) (removed ++ [i]) rest
    else scan_balls growth p (i + 1) removed rest

/-- Embeds `sorted(balls_to_remove, reverse=True)` (game_manager.py line 52):
insertion sort into descending order (the marks are distinct, so this is the
unique descending arrangement Python's `sorted` returns). -/
def insert_desc (i : ℕ) : List ℕ → List ℕ
  | [] => [i]
  | j :: rest => if j ≤ i then i :: j :: rest else j :: insert_desc i rest

def sort_desc (l : List ℕ) : List ℕ := l.foldr insert_desc []

/-- Embeds game_manager.py lines 52-54: `for i in sorted(..., reverse=True):
if i < len(balls): del balls[i]`. -/
def remove_indices (balls : List Food) (idxs : List ℕ) : List Food :=
  idxs.foldl (fun bs i => if i < bs.length then bs.eraseIdx i else bs) balls

/-- Embeds `GameManager.check_collision` (game_manager.py lines 38-54): every
player scans the ball list accumulating marked indices and score gains, then
the marked balls are deleted in descending index order. -/
def check_collision (growth : ℚ) (players : List Player) (balls : List Food) :
    List Player × List Food :=
  let scanned := players.foldl
    (fun (acc : List Player × List ℕ) p =>
      let pr := scan_balls growth p 0 acc.2 balls
      (acc.1 ++ [pr.1], pr.2)) ([], [])
  (scanned.1, remove_indices balls (sort_desc scanned.2))

/-- Embeds the body of `GameManager.player_collision` (game_manager.py lines
60-88) for one pair: no action unless the pair overlaps
(`require_complete_overlap=False`); the larger-radius player is `larger` (equal
radii: `continue`); eating requires `size_ratio > threshold` and
`smaller.is_colliding(larger)` (complete containment); on an eat the winner
gains the loser's score, the loser's score becomes 0, its birth time resets to
`now` and it is relocated to the spawn point `(rx, ry)`.  The result keeps the
argument order `(p1, p2)` and flags whether an eat happened. -/
def player_collision_pair (threshold now rx ry : ℚ) (p1 p2 : Player) :
    Player × Player × Bool :=
  if p1.is_colliding p2 false = true then
    if p1.radius > p2.radius then
      if threshold < p1.radius / p2.radius ∧ p2.is_colliding p1 = true then
        ({ p1 with score := p1.score + p2.score },
         { p2 with score := 0, birth_time := now, x := rx, y := ry }, true)
      else (p1, p2, false)
    else if p2.radius > p1.radius then
      if threshold < p2.radius / p1.radius ∧ p1.is_colliding p2 = true then
        ({ p1 with score := 0, birth_time := now, x := rx, y := ry },
         { p2 with score := p2.score + p1.score }, true)
      else (p1, p2, false)
    else (p1, p2, false)
  else (p1, p2, false)

/-- Embeds `GameManager.use_skill` (game_manager.py lines 90-102) together with
the ball list it leaves untouched.  `players` is the id → Player mapping as an
association list; `now` stands for `time.time()`. -/
def use_skill (players : List (ℕ × Player)) (balls : List Food) (player_id : ℕ)
    (skill_name : String) (now push_duration pull_duration : ℚ) :
    List (ℕ × Player) × List Food :=
  if skill_name = "push" then
    (players.map fun kv =>
      if kv.1 = player_id then
        (kv.1, { kv.2 with push_skill_active := true,
                           push_skill_end_time := now + push_duration })
      else kv, balls)
  else if skill_name = "pull" then
    (players.map fun kv =>
      if kv.1 = player_id then
        (kv.1, { kv.2 with pull_skill_active := true,
                           pull_skill_end_time := now + pull_duration })
      else kv, balls)
  else (players, balls)

/-- Embeds `GameManager._is_in_skill_range` (game_manager.py lines 225-241):
squared distance between centers at most `(skill_radius + target.radius) ^ 2`
(the source itself compares squares here, no square root involved). -/
def is_in_skill_range (x1 y1 x2 y2 target_radius skill_radius : ℚ) : Bool :=
  decide ((x1 - x2) ^ 2 + (y1 - y2) ^ 2 ≤ (skill_radius + target_radius) ^ 2)

/-- Embeds `GameManager._enforce_world_boundaries` (game_manager.py lines
243-248): both coordinates clamped to
`[padding + radius, world - padding - radius]`. -/
def enforce_world_boundaries (padding world_w world_h radius x y : ℚ) : ℚ × ℚ :=
  (max (padding + radius) (min x (world_w - padding - radius)),
   max (padding + radius) (min y (world_h - padding - radius)))

/-- Configuration slice `skills_cfg['push_skill']` read by `update_skills`. -/
structure PushCfg where
  push_force : ℚ
  min_push_force_multiplier : ℚ
  force_scale : ℚ
  min_distance : ℚ
  size_threshold_multiplier : ℚ
  deriving Repr, DecidableEq

/-- Embeds one caster/target interaction of the push branch of
`GameManager.update_skills` (game_manager.py lines 126-152), before the
boundary clamp that `_enforce_world_boundaries` applies afterwards.  `d` is the
value `math.sqrt(dx*dx + dy*dy)` the source computes (theorems pass it with
`0 ≤ d` and `d ^ 2 = dx ^ 2 + dy ^ 2`); the source floors it at
`min_distance`.  Result: new caster position and new target position. -/
def push_interaction (cfg : PushCfg) (px py pr ox oy target_radius eff_radius d : ℚ) :
    (ℚ × ℚ) × (ℚ × ℚ) :=
  if is_in_skill_range px py ox oy target_radius eff_radius then
    let dx := ox - px
    let dy := oy - py
    let distance := max cfg.min_distance d
    let min_push_force := cfg.push_force * cfg.min_push_force_multiplier
    let scale := max min_push_force (cfg.push_force * (1 - distance / eff_radius)) *
      cfg.force_scale
    if target_radius > pr * cfg.size_threshold_multiplier then
      ((px - dx * scale / distance, py - dy * scale / distance), (ox, oy))
    else
      ((px, py), (ox + dx * scale / distance, oy + dy * scale / distance))
  else ((px, py), (ox, oy))

/-- Embeds `GameManager.get_start_location` (game_manager.py lines 259-275).
The `random.randint(padding, world - padding)` draws are passed in: one
candidate pair per attempt plus the unconditional fallback pair; a candidate is
accepted when its distance to every player exceeds
`player_start_radius + player.radius + padding`. -/
def get_start_location (players : List Player) (start_radius padding : ℚ) :
    List (ℚ × ℚ) → ℚ × ℚ → ℚ × ℚ
  | [], fallback => fallback
  | c :: rest, fallback =>
    if players.all fun p =>
        !(sqrt_le ((c.1 - p.x) ^ 2 + (c.2 - p.y) ^ 2) (start_radius + p.radius + padding)) then
      c
    else get_start_location players start_radius padding rest fallback

/-! ## Food replenishment (`src/server/network_manager.py` lines 114-120) -/

/-- Embeds the per-tick ball-count maintenance of `NetworkManager.mainloop`:
`if len(balls) < min: to_add = min(max - len(balls), max - min + 1); if
to_add > 0: create_balls(to_add)` — `create_balls` appends exactly `to_add`
fresh food items, so only the count matters here. -/
def replenish_food (min_balls max_balls : ℤ) (count : ℕ) : ℕ :=
  if (count : ℤ) < min_balls then
    let to_add := min (max_balls - (count : ℤ)) (max_balls - min_balls + 1)
    if 0 < to_add then count + to_add.toNat else count
  else count

/-! ## Session cleanup (`src/server/client_handler.py` lines 208-217) -/

/-- Shared server state as `ClientThread.cleanup` sees it: the id → player
mapping (only the key set matters to cleanup) and the global connection
counter. -/
structure ServerState where
  players : Finset ℕ
  connections : ℤ
  deriving DecidableEq

/-- Embeds `ClientThread.cleanup`: under the lock, only `if self.client_id in
server.players` does it delete the player and decrement `server.connections`;
otherwise it does nothing to the shared state. -/
def cleanup (client_id : ℕ) (s : ServerState) : ServerState :=
  if client_id ∈ s.players then
    { players := s.players.erase client_id, connections := s.connections - 1 }
  else s

/-- Specification-side description of the ball indices one player marks for
removal: the indices (counted from `i`) of the food items it collides with
under the complete-containment default. -/
def collide_marks (p : Player) : ℕ → List Food → List ℕ
  | _, [] => []
  | i, b :: rest =>
    if p.is_colliding_food b then i :: collide_marks p (i + 1) rest
    else collide_marks p (i + 1) rest

/-- Specification-side removal by original index: walking the ball list with a
running index starting at `s`, drop exactly the balls whose original index is
in `idxs`.  The theorems below prove the source's descending-order deletion
(`remove_indices`) equal to this, which is the no-index-shift property. -/
def erase_marked (idxs : List ℕ) : ℕ → List Food → List Food
  | _, [] => []
  | s, b :: rest =>
    if s ∈ idxs then erase_marked idxs (s + 1) rest
    else b :: erase_marked idxs (s + 1) rest

/-- Player literal with position, radius and score set; the remaining fields
(birth time, age, velocity, skill flags) defaulted, as they do not enter the
collision rules. -/
def mk_player (x y radius score : ℚ) : Player :=
  ⟨x, y, radius, score, 0, 0, 1, false, 0, false, 0⟩

/-! ## Claim theorems -/

/-- Claim C2 (code bug): the claim asks for a distinguishable protocol-error
kind when the type tag is missing or unrecognized.  The code's own
`raise ValueError("Packet JSON missing 'type' field")` shows `ValueError` is
the intended protocol-error class (it is also the only class, with
`json.JSONDecodeError`, that the client handler's `except` clause catches) —
but `data.pop('type')` raises `KeyError` before that check can run, so a dict
without a type tag fails with `KeyError`, a different class from the
`ValueError` of an unrecognized tag, and one the read loop does not catch. -/
theorem from_json_error_kinds :
    Packet.from_json (some (.jobj [])) = .error .keyError ∧
    Packet.from_json (some (.jobj [("type", .jstr "bogus")])) = .error .valueError ∧
    Packet.from_json (some (.jobj [("type", .jstr "connect")])) = .error .typeError ∧
    PyErr.keyError ≠ PyErr.valueError := by
  refine ⟨rfl, rfl, rfl, by decide⟩

/-- Claim C4: after an update the radius is `newborn` at age 0, `adult` at
every age at least `growth_duration`, the linear interpolation between the two
in between (progress clamped at 1), and non-decreasing in age; and
`Player.update` computes exactly this radius at age `now - birth_time`. -/
theorem radius_growth_profile (newborn adult growth_duration : ℚ)
    (hdur : 0 < growth_duration) (hgrow : newborn ≤ adult) :
    update_radius newborn adult growth_duration 0 = newborn ∧
    (∀ age, growth_duration ≤ age →
      update_radius newborn adult growth_duration age = adult) ∧
    (∀ a1 a2, a1 ≤ a2 →
      update_radius newborn adult growth_duration a1 ≤
        update_radius newborn adult growth_duration a2) ∧
    (∀ age, 0 ≤ age → age ≤ growth_duration →
      update_radius newborn adult growth_duration age =
        newborn + (adult - newborn) * (age / growth_duration)) ∧
    (∀ (p : Player) (now : ℚ),
      (p.update now newborn adult growth_duration).radius =
        update_radius newborn adult growth_duration (now - p.birth_time)) := by
  refine ⟨?_, ?_, ?_, ?_, fun p now => rfl⟩
  · simp [update_radius, growth_progress, zero_div]
  · intro age hage
    have h1 : (1 : ℚ) ≤ age / growth_duration := (one_le_div hdur).mpr hage
    simp only [update_radius, growth_progress, min_eq_right h1]
    ring
  · intro a1 a2 h12
    have hdiv : a1 / growth_duration ≤ a2 / growth_duration :=
      div_le_div_of_nonneg_right h12 hdur.le
    have hmin : min (a1 / growth_duration) 1 ≤ min (a2 / growth_duration) 1 :=
      min_le_min hdiv le_rfl
    have hmul := mul_le_mul_of_nonneg_left hmin (sub_nonneg.mpr hgrow)
    simpa [update_radius, growth_progress] using add_le_add_left hmul newborn
  · intro age _ hle
    have h1 : age / growth_duration ≤ 1 := (div_le_one hdur).mpr hle
    simp [update_radius, growth_progress, min_eq_left h1]

/-- Witness for C4 at newborn 2, adult 10, growth duration 30: radius 2 at age
0 and 10 at age 45. -/
theorem radius_growth_profile_witness :
    update_radius 2 10 30 0 = 2 ∧ update_radius 2 10 30 45 = 10 :=
  ⟨(radius_growth_profile 2 10 30 (by norm_num) (by norm_num)).1,
   (radius_growth_profile 2 10 30 (by norm_num) (by norm_num)).2.1 45 (by norm_num)⟩

/-- Counterexample for C6: with min 5 and max 10, one replenishment from an
empty food list adds `min(10 - 0, 10 - 5 + 1) = 6` items, ending at 6, not the
claimed 5; and with min 8 and max 10 a tick from empty ends at 3, below the
configured minimum. -/
theorem replenish_scenario_refuted :
    replenish_food 5 10 0 = 6 ∧ replenish_food 5 10 0 ≠ 5 ∧
    replenish_food 8 10 0 = 3 ∧ ¬(8 ≤ (replenish_food 8 10 0 : ℤ)) := by decide

/-- Amended C6: the replenishment step never exceeds the configured maximum
(when the pre-tick count did not); when the count is below the minimum it adds
exactly `max - min + 1` items (so from empty with min 5 / max 10 a tick ends
with 6, not 5); at or above the minimum it adds nothing; and the result reaches
the minimum exactly when the pre-tick count is at least `2*min - max - 1`. -/
theorem replenish_bounds (min_balls max_balls : ℤ) (count : ℕ)
    (hmm : min_balls ≤ max_balls) (hcount : (count : ℤ) ≤ max_balls) :
    ((replenish_food min_balls max_balls count : ℤ) ≤ max_balls) ∧
    ((count : ℤ) < min_balls →
      (replenish_food min_balls max_balls count : ℤ) =
        (count : ℤ) + (max_balls - min_balls + 1)) ∧
    (min_balls ≤ (count : ℤ) → replenish_food min_balls max_balls count = count) ∧
    (2 * min_balls - max_balls - 1 ≤ (count : ℤ) →
      min_balls ≤ (replenish_food min_balls max_balls count : ℤ)) := by
  by_cases h : (count : ℤ) < min_balls
  · have hsel : min (max_balls - (count : ℤ)) (max_balls - min_balls + 1) =
        max_balls - min_balls + 1 := by omega
    have hpos : (0 : ℤ) < max_balls - min_balls + 1 := by omega
    have hval : replenish_food min_balls max_balls count =
        count + (max_balls - min_balls + 1).toNat := by
      simp only [replenish_food, if_pos h, hsel, if_pos hpos]
    have hcast : (replenish_food min_balls max_balls count : ℤ) =
        (count : ℤ) + (max_balls - min_balls + 1) := by
      rw [hval]; push_cast; omega
    refine ⟨by omega, fun _ => hcast, fun hge => absurd hge (by omega), fun hlow => by omega⟩
  · have hval : replenish_food min_balls max_balls count = count := by
      simp only [replenish_food, if_neg h]
    refine ⟨by omega, fun hlt => absurd hlt h, fun _ => hval, fun _ => by omega⟩

/-- Witness for C6 (amended) at min 5, max 10, count 0: the tick ends at
`0 + (10 - 5 + 1)` and within the maximum. -/
theorem replenish_bounds_witness :
    ((replenish_food 5 10 0 : ℤ) ≤ 10) ∧
    (replenish_food 5 10 0 : ℤ) = (0 : ℤ) + (10 - 5 + 1) :=
  ⟨(replenish_bounds 5 10 0 (by norm_num) (by norm_num)).1,
   (replenish_bounds 5 10 0 (by norm_num) (by norm_num)).2.1 (by norm_num)⟩

/-- Counterexample for C9: on a failed-handshake exit path the session's id was
never registered in `server.players`, yet the accept step had already
incremented `server.connections`; `cleanup` then leaves the counter untouched
(here: stuck at 1), while the claim requires a decrement on every exit path. -/
theorem cleanup_failed_handshake_no_decrement :
    cleanup 7 ⟨∅, 1⟩ = ⟨∅, 1⟩ ∧ (cleanup 7 ⟨∅, 1⟩).connections ≠ 0 := by
  constructor
  · simp [cleanup]
  · simp [cleanup]

/-- Amended C9: cleanup is idempotent on every exit path; for a session whose
player was registered it removes the player and decrements the counter exactly
once; but when the player was never registered (failed handshake) it leaves the
state — including the already-incremented connection counter — unchanged. -/
theorem cleanup_idempotent_exactly_once (s : ServerState) (id : ℕ) :
    cleanup id (cleanup id s) = cleanup id s ∧
    (id ∈ s.players →
      (cleanup id s).connections = s.connections - 1 ∧ id ∉ (cleanup id s).players) ∧
    (id ∉ s.players → cleanup id s = s) := by
  refine ⟨?_, fun hmem => ?_, fun hnot => by simp [cleanup, hnot]⟩
  · by_cases hmem : id ∈ s.players
    · have h1 : cleanup id s = ⟨s.players.erase id, s.connections - 1⟩ := by
        simp [cleanup, hmem]
      rw [h1]
      simp [cleanup, Finset.mem_erase]
    · simp [cleanup, hmem]
  · simp [cleanup, hmem, Finset.mem_erase]

/-- Witness for C9 (amended) at a registered session: player 3 present,
counter 5; cleanup removes it, decrements to 4, and a second cleanup changes
nothing. -/
theorem cleanup_idempotent_exactly_once_witness :
    cleanup 3 (cleanup 3 ⟨{3}, 5⟩) = cleanup 3 ⟨{3}, 5⟩ ∧
    (cleanup 3 (⟨{3}, 5⟩ : ServerState)).connections = 5 - 1 ∧
    3 ∉ (cleanup 3 (⟨{3}, 5⟩ : ServerState)).players :=
  ⟨(cleanup_idempotent_exactly_once ⟨{3}, 5⟩ 3).1,
   ((cleanup_idempotent_exactly_once ⟨{3}, 5⟩ 3).2.1 (by decide)).1,
   ((cleanup_idempotent_exactly_once ⟨{3}, 5⟩ 3).2.1 (by decide)).2⟩

/-- Claim C10: `use_skill` with a skill name other than "push"/"pull", or with
a player id absent from the mapping, changes no player, no food item and no
skill activation state. -/
theorem use_skill_frame (players : List (ℕ × Player)) (balls : List Food)
    (player_id : ℕ) (skill_name : String) (now pushd pulld : ℚ) :
    (skill_name ≠ "push" → skill_name ≠ "pull" →
      use_skill players balls player_id skill_name now pushd pulld = (players, balls)) ∧
    ((∀ kv ∈ players, kv.1 ≠ player_id) →
      use_skill players balls player_id skill_name now pushd pulld = (players, balls)) := by
  constructor
  · intro h1 h2
    simp [use_skill, h1, h2]
  · intro habs
    have hmap : ∀ (l : List (ℕ × Player)) (g : ℕ × Player → ℕ × Player),
        (∀ kv ∈ l, g kv = kv) → l.map g = l := by
      intro l g hg
      induction l with
      | nil => rfl
      | cons hd tl ih =>
        rw [List.map_cons, hg hd (List.mem_cons_self hd tl),
          ih fun kv hkv => hg kv (List.mem_cons_of_mem hd hkv)]
    unfold use_skill
    split_ifs <;>
      first
        | rfl
        | (refine Prod.ext ?_ rfl
           exact hmap players _ fun kv hkv => if_neg (habs kv hkv))

/-- Claim C3: for players with radii `r1 < r2` (positive, as age-derived radii
are), the pair step of `player_collision` makes the larger eat the smaller iff
`r2 / r1` exceeds the eating threshold and the smaller lies entirely inside the
larger (`distance + r1 ≤ r2`); on an eat the winner gains exactly the loser's
score and the loser's score becomes exactly 0; with the ratio at or below the
threshold (or any failed condition) both players are unchanged; and two players
of equal radius are never eaten. -/
theorem eating_rule (threshold now rx ry : ℚ) (p1 p2 : Player)
    (hr1 : 0 < p1.radius) (hlt : p1.radius < p2.radius) :
    ((player_collision_pair threshold now rx ry p1 p2).2.2 = true ↔
      (threshold < p2.radius / p1.radius ∧
        Real.sqrt (((p1.x - p2.x) ^ 2 + (p1.y - p2.y) ^ 2 : ℚ) : ℝ) +
          (p1.radius : ℝ) ≤ (p2.radius : ℝ))) ∧
    ((player_collision_pair threshold now rx ry p1 p2).2.2 = true →
      (player_collision_pair threshold now rx ry p1 p2).2.1.score = p2.score + p1.score ∧
      (player_collision_pair threshold now rx ry p1 p2).1.score = 0) ∧
    ((player_collision_pair threshold now rx ry p1 p2).2.2 = false →
      player_collision_pair threshold now rx ry p1 p2 = (p1, p2, false)) ∧
    (p2.radius / p1.radius ≤ threshold →
      player_collision_pair threshold now rx ry p1 p2 = (p1, p2, false)) ∧
    (∀ (q1 q2 : Player), q1.radius = q2.radius →
      player_collision_pair threshold now rx ry q1 q2 = (q1, q2, false)) := by
  have hb1 : ¬(p1.radius > p2.radius) := not_lt.mpr hlt.le
  have hr2 : 0 < p2.radius := hr1.trans hlt
  have hequal : ∀ (q1 q2 : Player), q1.radius = q2.radius →
      player_collision_pair threshold now rx ry q1 q2 = (q1, q2, false) := by
    intro q1 q2 hq
    simp [player_collision_pair, hq, lt_irrefl]
  have hov : p1.is_colliding p2 false =
      sqrt_lt ((p1.x - p2.x) ^ 2 + (p1.y - p2.y) ^ 2) (p1.radius + p2.radius) := by
    simp [Player.is_colliding, is_colliding_raw]
  have hco : p1.is_colliding p2 =
      sqrt_add_le ((p1.x - p2.x) ^ 2 + (p1.y - p2.y) ^ 2) p1.radius p2.radius := by
    simp [Player.is_colliding, is_colliding_raw, hb1]
  have hcontain : sqrt_add_le ((p1.x - p2.x) ^ 2 + (p1.y - p2.y) ^ 2) p1.radius p2.radius = true ↔
      Real.sqrt (((p1.x - p2.x) ^ 2 + (p1.y - p2.y) ^ 2 : ℚ) : ℝ) +
        (p1.radius : ℝ) ≤ (p2.radius : ℝ) :=
    sqrt_add_le_correct _ _ _
  have hcontain_overlap :
      sqrt_add_le ((p1.x - p2.x) ^ 2 + (p1.y - p2.y) ^ 2) p1.radius p2.radius = true →
      sqrt_lt ((p1.x - p2.x) ^ 2 + (p1.y - p2.y) ^ 2) (p1.radius + p2.radius) = true := by
    intro h
    rw [sqrt_add_le, decide_eq_true_iff] at h
    rw [sqrt_lt, decide_eq_true_iff]
    constructor
    · linarith
    · nlinarith [h.2, sq_nonneg (p2.radius - p1.radius)]
  by_cases hover : sqrt_lt ((p1.x - p2.x) ^ 2 + (p1.y - p2.y) ^ 2)
      (p1.radius + p2.radius) = true
  · by_cases hcc : threshold < p2.radius / p1.radius ∧
        sqrt_add_le ((p1.x - p2.x) ^ 2 + (p1.y - p2.y) ^ 2) p1.radius p2.radius = true
    · have hpair : player_collision_pair threshold now rx ry p1 p2 =
          ({ p1 with score := 0, birth_time := now, x := rx, y := ry },
           { p2 with score := p2.score + p1.score }, true) := by
        rw [player_collision_pair, hov, if_pos hover, if_neg hb1, if_pos hlt, hco,
          if_pos ⟨hcc.1, hcc.2⟩]
      refine ⟨?_, ?_, ?_, ?_, hequal⟩
      · rw [hpair]
        exact ⟨fun _ => ⟨hcc.1, hcontain.mp hcc.2⟩, fun _ => rfl⟩
      · intro _
        rw [hpair]
        exact ⟨rfl, rfl⟩
      · intro hfalse
        rw [hpair] at hfalse
        simp at hfalse
      · intro hth
        exact absurd hcc.1 (not_lt.mpr hth)
    · have hpair : player_collision_pair threshold now rx ry p1 p2 = (p1, p2, false) := by
        rw [player_collision_pair, hov, if_pos hover, if_neg hb1, if_pos hlt, hco, if_neg]
        exact hcc
      refine ⟨?_, ?_, fun _ => hpair, fun _ => hpair, hequal⟩
      · rw [hpair]
        simp only [iff_false, Bool.false_eq_true, false_iff]
        rintro ⟨hth, hre⟩
        exact hcc ⟨hth, hcontain.mpr hre⟩
      · intro habs
        rw [hpair] at habs
        simp at habs
  · have hpair : player_collision_pair threshold now rx ry p1 p2 = (p1, p2, false) := by
      rw [player_collision_pair, hov, if_neg]
      simpa using hover
    refine ⟨?_, ?_, fun _ => hpair, fun _ => hpair, hequal⟩
    · rw [hpair]
      simp only [Bool.false_eq_true, false_iff]
      rintro ⟨_, hre⟩
      exact hover (hcontain_overlap (hcontain.mpr hre))
    · intro habs
      rw [hpair] at habs
      simp at habs

/-- Witness for C3: a radius-2, score-5 player concentric with a radius-10,
score-7 player and threshold 3 (ratio 5): the larger eats the smaller, ending
with scores 12 and 0. -/
theorem eating_rule_witness :
    0 < (mk_player 0 0 2 5).radius ∧
    (mk_player 0 0 2 5).radius < (mk_player 0 0 10 7).radius ∧
    (player_collision_pair 3 0 50 50 (mk_player 0 0 2 5) (mk_player 0 0 10 7)).2.2 = true ∧
    (player_collision_pair 3 0 50 50 (mk_player 0 0 2 5) (mk_player 0 0 10 7)).2.1.score =
      7 + 5 ∧
    (player_collision_pair 3 0 50 50 (mk_player 0 0 2 5) (mk_player 0 0 10 7)).1.score = 0 := by
  have h := eating_rule 3 0 50 50 (mk_player 0 0 2 5) (mk_player 0 0 10 7)
    (by norm_num [mk_player]) (by norm_num [mk_player])
  have hflag : (player_collision_pair 3 0 50 50 (mk_player 0 0 2 5)
      (mk_player 0 0 10 7)).2.2 = true := by
    apply h.1.mpr
    constructor
    · norm_num [mk_player]
    · simp only [mk_player]
      norm_num [Real.sqrt_zero]
  exact ⟨by norm_num [mk_player], by norm_num [mk_player], hflag,
    (h.2.1 hflag).1, (h.2.1 hflag).2⟩


/-- Counterexample for C7 (config: force 100, min-force multiplier 1/10, force
scale 1, min distance 1, size threshold 3; caster radius 10, effective radius
50).  A target at distance 0 is not displaced at all (the direction vector
`(dx, dy)` is zero), while the claim predicts magnitude
`max(force, floor) * scale = 100 ≠ 0`; a target at distance exactly the
effective radius is displaced from x = 50 to x = 60 — magnitude 10, the
minimum-force floor times the force scale — while the claim predicts ≈ 0. -/
theorem push_step_refuted :
    push_interaction ⟨100, 1/10, 1, 1, 3⟩ 0 0 10 0 0 2 50 0 = ((0, 0), (0, 0)) ∧
    ¬(max (100 : ℚ) (100 * (1/10)) * 1 = 0) ∧
    push_interaction ⟨100, 1/10, 1, 1, 3⟩ 0 0 10 50 0 2 50 50 = ((0, 0), (60, 0)) ∧
    ¬((60 : ℚ) - 50 = 0) := by
  refine ⟨?_, by norm_num, ?_, by norm_num⟩
  · norm_num [push_interaction, is_in_skill_range]
  · norm_num [push_interaction, is_in_skill_range]

/-- Amended C7: a target at distance exactly 0 receives no displacement (zero
direction vector); an in-range, non-oversized target at distance `d` receives a
displacement of squared magnitude
`(max(min_force, force * (1 - clamped/eff)) * force_scale * d / clamped) ^ 2`
with `clamped = max(min_distance, d)`; in particular at `d = eff` (with
`min_distance ≤ eff` and a nonnegative floor) the squared magnitude is
`(min_force * force_scale) ^ 2` — the floor, not 0. -/
theorem push_step_profile (cfg : PushCfg) (px py pr ox oy tr eff d : ℚ)
    (hd0 : 0 ≤ d) (hd : d ^ 2 = (ox - px) ^ 2 + (oy - py) ^ 2) (heff : 0 < eff) :
    (d = 0 → push_interaction cfg px py pr ox oy tr eff d = ((px, py), (ox, oy))) ∧
    (is_in_skill_range px py ox oy tr eff = true →
      ¬(tr > pr * cfg.size_threshold_multiplier) →
      ((push_interaction cfg px py pr ox oy tr eff d).2.1 - ox) ^ 2 +
        ((push_interaction cfg px py pr ox oy tr eff d).2.2 - oy) ^ 2 =
        (max (cfg.push_force * cfg.min_push_force_multiplier)
            (cfg.push_force * (1 - max cfg.min_distance d / eff)) * cfg.force_scale *
          d / max cfg.min_distance d) ^ 2) ∧
    (d = eff → cfg.min_distance ≤ eff →
      0 ≤ cfg.push_force * cfg.min_push_force_multiplier →
      is_in_skill_range px py ox oy tr eff = true →
      ¬(tr > pr * cfg.size_threshold_multiplier) →
      ((push_interaction cfg px py pr ox oy tr eff d).2.1 - ox) ^ 2 +
        ((push_interaction cfg px py pr ox oy tr eff d).2.2 - oy) ^ 2 =
        (cfg.push_force * cfg.min_push_force_multiplier * cfg.force_scale) ^ 2) := by
  have key : is_in_skill_range px py ox oy tr eff = true →
      ¬(tr > pr * cfg.size_threshold_multiplier) →
      ((push_interaction cfg px py pr ox oy tr eff d).2.1 - ox) ^ 2 +
        ((push_interaction cfg px py pr ox oy tr eff d).2.2 - oy) ^ 2 =
        (max (cfg.push_force * cfg.min_push_force_multiplier)
            (cfg.push_force * (1 - max cfg.min_distance d / eff)) * cfg.force_scale *
          d / max cfg.min_distance d) ^ 2 := by
    intro hrange hbig
    simp only [push_interaction, if_pos hrange, if_neg hbig]
    linear_combination
      (-((max (cfg.push_force * cfg.min_push_force_multiplier)
          (cfg.push_force * (1 - max cfg.min_distance d / eff)) * cfg.force_scale /
          max cfg.min_distance d) ^ 2)) * hd
  refine ⟨?_, key, ?_⟩
  · intro h0
    subst h0
    have hzero : (ox - px) ^ 2 + (oy - py) ^ 2 = 0 := by
      have h := hd.symm
      nlinarith [h]
    have hx : ox = px := by
      have h1 : (ox - px) ^ 2 = 0 := by
        nlinarith [sq_nonneg (ox - px), sq_nonneg (oy - py)]
      have h2 : ox - px = 0 := pow_eq_zero_iff two_ne_zero |>.mp h1
      linarith
    have hy : oy = py := by
      have h1 : (oy - py) ^ 2 = 0 := by
        nlinarith [sq_nonneg (ox - px), sq_nonneg (oy - py)]
      have h2 : oy - py = 0 := pow_eq_zero_iff two_ne_zero |>.mp h1
      linarith
    subst hx; subst hy
    simp only [push_interaction]
    split_ifs <;> simp [sub_self]
  · intro hde hmind hminF hrange hbig
    have h2 := key hrange hbig
    subst hde
    have hmax : max cfg.min_distance d = d := max_eq_right hmind
    have hdiv : d / d = 1 := div_self heff.ne'
    rw [hmax, hdiv] at h2
    rw [h2]
    have hfloor : max (cfg.push_force * cfg.min_push_force_multiplier)
        (cfg.push_force * (1 - 1)) = cfg.push_force * cfg.min_push_force_multiplier := by
      rw [show (1 : ℚ) - 1 = 0 by ring, mul_zero]
      exact max_eq_left hminF
    rw [hfloor, mul_div_assoc, hdiv, mul_one]

/-- Witness for C7 (amended) at the edge-of-radius input of the counterexample:
the squared displacement magnitude equals the squared floor,
`(100 * (1/10) * 1) ^ 2`. -/
theorem push_step_profile_witness :
    ((push_interaction ⟨100, 1/10, 1, 1, 3⟩ 0 0 10 50 0 2 50 50).2.1 - 50) ^ 2 +
      ((push_interaction ⟨100, 1/10, 1, 1, 3⟩ 0 0 10 50 0 2 50 50).2.2 - 0) ^ 2 =
      ((100 : ℚ) * (1/10) * 1) ^ 2 :=
  (push_step_profile ⟨100, 1/10, 1, 1, 3⟩ 0 0 10 50 0 2 50 50 (by norm_num) (by norm_num)
      (by norm_num)).2.2 rfl (by norm_num) (by norm_num)
    (by simp only [is_in_skill_range, decide_eq_true_iff]; norm_num) (by norm_num)

/-- Counterexample for C8: spawn-point selection draws
`randint(padding, world - padding)` without subtracting the entity's radius.
With padding 10 and a player radius of 5, the draw `(10, 10)` (within the
randint range) is accepted against an empty player list, yet
`10 < padding + radius = 15` — outside the bounds the claim asserts. -/
theorem spawn_ignores_radius :
    get_start_location [] 5 10 [(10, 10)] (50, 50) = (10, 10) ∧
    ¬((10 : ℚ) + 5 ≤ 10) := by
  exact ⟨rfl, by norm_num⟩

/-- Amended C8: the explicit boundary clamp (applied after every push/pull
displacement) and `Player.move` keep both coordinates within
`[padding + radius, world - padding - radius]` whenever that interval is
nonempty; spawn-point selection — and with it the eat-respawn relocation —
only guarantees the unshrunk box `[padding, world - padding]`: the entity's
radius is not subtracted. -/
theorem boundary_profile (padding world_w world_h radius x y : ℚ)
    (hx : padding + radius ≤ world_w - padding - radius)
    (hy : padding + radius ≤ world_h - padding - radius) :
    (padding + radius ≤ (enforce_world_boundaries padding world_w world_h radius x y).1 ∧
     (enforce_world_boundaries padding world_w world_h radius x y).1 ≤
       world_w - padding - radius ∧
     padding + radius ≤ (enforce_world_boundaries padding world_w world_h radius x y).2 ∧
     (enforce_world_boundaries padding world_w world_h radius x y).2 ≤
       world_h - padding - radius) ∧
    (∀ (p : Player) (dx dy : ℚ), p.radius = radius →
      padding + radius ≤ (p.move dx dy world_w world_h padding).x ∧
      (p.move dx dy world_w world_h padding).x ≤ world_w - padding - radius ∧
      padding + radius ≤ (p.move dx dy world_w world_h padding).y ∧
      (p.move dx dy world_w world_h padding).y ≤ world_h - padding - radius) ∧
    (∀ (players : List Player) (sr : ℚ) (cands : List (ℚ × ℚ)) (fb : ℚ × ℚ),
      (∀ c ∈ cands, padding ≤ c.1 ∧ c.1 ≤ world_w - padding ∧
        padding ≤ c.2 ∧ c.2 ≤ world_h - padding) →
      (padding ≤ fb.1 ∧ fb.1 ≤ world_w - padding ∧
        padding ≤ fb.2 ∧ fb.2 ≤ world_h - padding) →
      (padding ≤ (get_start_location players sr padding cands fb).1 ∧
       (get_start_location players sr padding cands fb).1 ≤ world_w - padding ∧
       padding ≤ (get_start_location players sr padding cands fb).2 ∧
       (get_start_location players sr padding cands fb).2 ≤ world_h - padding)) := by
  have hclamp : ∀ lo hi v : ℚ, lo ≤ hi → lo ≤ max lo (min v hi) ∧ max lo (min v hi) ≤ hi := by
    intro lo hi v h
    exact ⟨le_max_left _ _, max_le h (min_le_right _ _)⟩
  refine ⟨?_, ?_, ?_⟩
  · obtain ⟨h1, h2⟩ := hclamp _ _ x hx
    obtain ⟨h3, h4⟩ := hclamp _ _ y hy
    exact ⟨h1, h2, h3, h4⟩
  · intro p dx dy hpr
    simp only [Player.move, hpr]
    obtain ⟨h1, h2⟩ := hclamp (padding + radius) (world_w - padding - radius)
      (p.x + dx * p.start_velocity) hx
    obtain ⟨h3, h4⟩ := hclamp (padding + radius) (world_h - padding - radius)
      (p.y + dy * p.start_velocity) hy
    exact ⟨h1, h2, h3, h4⟩
  · intro players sr cands fb hcands hfb
    induction cands with
    | nil => exact hfb
    | cons c rest ih =>
      have hc := hcands c (List.mem_cons_self c rest)
      have hrest : ∀ c2 ∈ rest, padding ≤ c2.1 ∧ c2.1 ≤ world_w - padding ∧
          padding ≤ c2.2 ∧ c2.2 ≤ world_h - padding :=
        fun c2 hc2 => hcands c2 (List.mem_cons_of_mem c hc2)
      simp only [get_start_location]
      split_ifs with hacc
      · exact hc
      · exact ih hrest

/-- Witness for C8 (amended) with padding 10, world 100 × 100, radius 5: the
clamp of the out-of-range point (500, -3) lands inside
`[15, 85] × [15, 85]`. -/
theorem boundary_profile_witness :
    10 + 5 ≤ (enforce_world_boundaries 10 100 100 5 500 (-3)).1 ∧
    (enforce_world_boundaries 10 100 100 5 500 (-3)).1 ≤ 100 - 10 - 5 ∧
    10 + 5 ≤ (enforce_world_boundaries 10 100 100 5 500 (-3)).2 ∧
    (enforce_world_boundaries 10 100 100 5 500 (-3)).2 ≤ 100 - 10 - 5 :=
  (boundary_profile 10 100 100 5 500 (-3) (by norm_num) (by norm_num)).1

/-- Counterexample for C5: a radius-10 player at the origin and a radius-5 food
at (7, 0) overlap in the simple sense (distance 7 < 10 + 5) but neither circle
contains the other; `check_collision` — which calls `player.is_colliding(ball)`
with the complete-containment default — removes nothing and leaves the score
unchanged, while the claim requires removal and a score gain. -/
theorem food_overlap_not_consumed :
    is_colliding_raw 0 0 10 7 0 5 false = true ∧
    Real.sqrt ((((0 : ℚ) - 7) ^ 2 + ((0 : ℚ) - 0) ^ 2 : ℚ) : ℝ) < ((10 + 5 : ℚ) : ℝ) ∧
    check_collision 4 [mk_player 0 0 10 0] [⟨7, 0, 5⟩] =
      ([mk_player 0 0 10 0], [⟨7, 0, 5⟩]) := by
  refine ⟨?_, ?_, ?_⟩
  · simp only [is_colliding_raw, sqrt_lt]
    norm_num
  · exact (sqrt_lt_correct _ _).mp (by simp only [sqrt_lt]; norm_num)
  · norm_num [check_collision, scan_balls, Player.is_colliding_food, is_colliding_raw,
      sqrt_add_le, mk_player, remove_indices, sort_desc]

theorem increase_score_is_colliding_food (p : Player) (g : ℚ) (b : Food) (flag : Bool) :
    (p.increase_score g).is_colliding_food b flag = p.is_colliding_food b flag := rfl

theorem collide_marks_increase_score (p : Player) (g : ℚ) :
    ∀ (i : ℕ) (balls : List Food),
      collide_marks (p.increase_score g) i balls = collide_marks p i balls := by
  intro i balls
  induction balls generalizing i with
  | nil => rfl
  | cons b rest ih =>
    simp only [collide_marks, increase_score_is_colliding_food, ih]

theorem scan_balls_spec (growth : ℚ) (balls : List Food) :
    ∀ (p : Player) (i : ℕ) (removed : List ℕ), (∀ j ∈ removed, j < i) →
      scan_balls growth p i removed balls =
        ({ p with score := p.score +
            growth * ((balls.filter fun b => p.is_colliding_food b).length : ℚ) },
         removed ++ collide_marks p i balls) := by
  induction balls with
  | nil =>
    intro p i removed _
    simp only [scan_balls, collide_marks, List.filter_nil, List.length_nil, Nat.cast_zero,
      mul_zero, add_zero, List.append_nil]
  | cons b rest ih =>
    intro p i removed hrm
    have hnotin : i ∉ removed := fun hmem => absurd (hrm i hmem) (lt_irrefl i)
    have hcontains : removed.contains i = false := by
      simp [hnotin]
    by_cases hcol : p.is_colliding_food b = true
    · have hstep : scan_balls growth p i removed (b :: rest) =
          scan_balls growth (p.increase_score growth) (i + 1) (removed ++ [i]) rest := by
        simp only [scan_balls, hcontains, Bool.false_eq_true, if_false, hcol, if_true]
      rw [hstep, ih (p.increase_score growth) (i + 1) (removed ++ [i])
        (by intro j hj
            rcases List.mem_append.mp hj with hj1 | hj2
            · exact Nat.lt_succ_of_lt (hrm j hj1)
            · simp only [List.mem_singleton] at hj2
              omega)]
      have hpred : ∀ b2 : Food,
          (p.increase_score growth).is_colliding_food b2 = p.is_colliding_food b2 :=
        fun b2 => increase_score_is_colliding_food p growth b2 true
      rw [List.filter_congr (fun b2 _ => hpred b2), collide_marks_increase_score]
      simp only [collide_marks, hcol, if_true, List.filter_cons, List.length_cons]
      refine Prod.ext ?_ ?_
      · simp only [Player.increase_score, Player.mk.injEq, true_and, and_true]
        push_cast
        ring
      · simp [List.append_assoc]
    · have hcol2 : p.is_colliding_food b = false := by
        cases hb : p.is_colliding_food b
        · rfl
        · exact absurd hb hcol
      have hstep : scan_balls growth p i removed (b :: rest) =
          scan_balls growth p (i + 1) removed rest := by
        simp only [scan_balls, hcontains, Bool.false_eq_true, if_false, hcol2]
      rw [hstep, ih p (i + 1) removed (fun j hj => Nat.lt_succ_of_lt (hrm j hj))]
      simp only [collide_marks, hcol2, Bool.false_eq_true, if_false, List.filter_cons, hcol2]

theorem collide_marks_ge (p : Player) :
    ∀ (i : ℕ) (balls : List Food), ∀ j ∈ collide_marks p i balls, i ≤ j := by
  intro i balls
  induction balls generalizing i with
  | nil => intro j hj; simp [collide_marks] at hj
  | cons b rest ih =>
    intro j hj
    simp only [collide_marks] at hj
    by_cases hcol : p.is_colliding_food b = true
    · rw [if_pos hcol] at hj
      rcases List.mem_cons.mp hj with h | h
      · omega
      · have := ih (i + 1) j h; omega
    · rw [if_neg hcol] at hj
      have := ih (i + 1) j hj; omega

theorem collide_marks_pairwise (p : Player) :
    ∀ (i : ℕ) (balls : List Food), (collide_marks p i balls).Pairwise (· < ·) := by
  intro i balls
  induction balls generalizing i with
  | nil => simp [collide_marks]
  | cons b rest ih =>
    simp only [collide_marks]
    by_cases hcol : p.is_colliding_food b = true
    · rw [if_pos hcol]
      refine List.Pairwise.cons ?_ (ih (i + 1))
      intro j hj
      have := collide_marks_ge p (i + 1) rest j hj
      omega
    · rw [if_neg hcol]
      exact ih (i + 1)

theorem insert_desc_append (i : ℕ) :
    ∀ (l : List ℕ), (∀ j ∈ l, i < j) → insert_desc i l = l ++ [i] := by
  intro l
  induction l with
  | nil => intro _; rfl
  | cons j rest ih =>
    intro h
    have hj : i < j := h j (List.mem_cons_self j rest)
    simp only [insert_desc, if_neg (by omega : ¬ j ≤ i), List.cons_append, List.cons.injEq,
      true_and]
    exact ih fun j2 hj2 => h j2 (List.mem_cons_of_mem j hj2)

theorem sort_desc_asc : ∀ (l : List ℕ), l.Pairwise (· < ·) → sort_desc l = l.reverse := by
  intro l
  induction l with
  | nil => intro _; rfl
  | cons x rest ih =>
    intro h
    have hx : ∀ j ∈ rest, x < j := (List.pairwise_cons.mp h).1
    have hrest := (List.pairwise_cons.mp h).2
    show insert_desc x (sort_desc rest) = (x :: rest).reverse
    rw [ih hrest, insert_desc_append x rest.reverse
      (fun j hj => hx j (List.mem_reverse.mp hj)), List.reverse_cons]

theorem erase_marked_none (idxs : List ℕ) :
    ∀ (s : ℕ) (balls : List Food), (∀ j ∈ idxs, j < s) →
      erase_marked idxs s balls = balls := by
  intro s balls
  induction balls generalizing s with
  | nil => intro _; rfl
  | cons b rest ih =>
    intro h
    have hnot : s ∉ idxs := fun hmem => absurd (h s hmem) (lt_irrefl s)
    simp only [erase_marked, if_neg hnot, List.cons.injEq, true_and]
    exact ih (s + 1) fun j hj => Nat.lt_succ_of_lt (h j hj)

theorem erase_marked_drop_lt (x : ℕ) (idxs : List ℕ) :
    ∀ (s : ℕ) (balls : List Food), x < s →
      erase_marked (x :: idxs) s balls = erase_marked idxs s balls := by
  intro s balls
  induction balls generalizing s with
  | nil => intro _; rfl
  | cons b rest ih =>
    intro hx
    have hcond : s ∈ x :: idxs ↔ s ∈ idxs := by
      simp only [List.mem_cons, or_iff_right_iff_imp]
      intro hsx; omega
    simp only [erase_marked]
    rw [if_congr hcond rfl rfl]
    by_cases hm : s ∈ idxs
    · rw [if_pos hm, if_pos hm, ih (s + 1) (by omega)]
    · rw [if_neg hm, if_neg hm, ih (s + 1) (by omega)]

theorem erase_marked_drop_ge (k : ℕ) (idxs : List ℕ) :
    ∀ (s : ℕ) (balls : List Food), s + balls.length ≤ k →
      erase_marked (k :: idxs) s balls = erase_marked idxs s balls := by
  intro s balls
  induction balls generalizing s with
  | nil => intro _; rfl
  | cons b rest ih =>
    intro hk
    have hlen : (b :: rest).length = rest.length + 1 := rfl
    have hcond : s ∈ k :: idxs ↔ s ∈ idxs := by
      simp only [List.mem_cons, or_iff_right_iff_imp]
      intro hsk
      rw [hlen] at hk
      omega
    simp only [erase_marked]
    rw [if_congr hcond rfl rfl]
    have hnext : s + 1 + rest.length ≤ k := by
      rw [hlen] at hk; omega
    by_cases hm : s ∈ idxs
    · rw [if_pos hm, if_pos hm, ih (s + 1) hnext]
    · rw [if_neg hm, if_neg hm, ih (s + 1) hnext]

theorem erase_marked_eraseIdx (k : ℕ) (rest : List ℕ) (hrest : ∀ j ∈ rest, j < k) :
    ∀ (balls : List Food) (s : ℕ), s ≤ k → k - s < balls.length →
      erase_marked rest s (balls.eraseIdx (k - s)) = erase_marked (k :: rest) s balls := by
  intro balls
  induction balls with
  | nil =>
    intro s _ hlen
    simp at hlen
  | cons b tail ih =>
    intro s hsle hlen
    by_cases hs : s = k
    · subst hs
      rw [Nat.sub_self, List.eraseIdx_cons_zero]
      have h1 : erase_marked rest s tail = tail :=
        erase_marked_none rest s tail fun j hj => hrest j hj
      have h2 : erase_marked (s :: rest) s (b :: tail) =
          erase_marked (s :: rest) (s + 1) tail := by
        simp [erase_marked]
      rw [h1, h2, erase_marked_none (s :: rest) (s + 1) tail]
      intro j hj
      rcases List.mem_cons.mp hj with h | h
      · omega
      · have := hrest j h; omega
    · have hlt : s < k := lt_of_le_of_ne hsle hs
      have hsub : k - s = (k - (s + 1)) + 1 := by omega
      rw [hsub, List.eraseIdx_cons_succ]
      have hcond : s ∈ k :: rest ↔ s ∈ rest := by
        simp only [List.mem_cons, or_iff_right_iff_imp]
        intro hsk; omega
      simp only [erase_marked]
      rw [if_congr hcond rfl rfl]
      have hnext : k - (s + 1) < tail.length := by
        simp only [List.length_cons] at hlen
        omega
      by_cases hm : s ∈ rest
      · rw [if_pos hm, if_pos hm, ih (s + 1) hlt hnext]
      · rw [if_neg hm, if_neg hm, ih (s + 1) hlt hnext]

theorem remove_indices_desc :
    ∀ (idxs : List ℕ), idxs.Pairwise (· > ·) →
      ∀ (balls : List Food), remove_indices balls idxs = erase_marked idxs 0 balls := by
  intro idxs
  induction idxs with
  | nil =>
    intro _ balls
    exact (erase_marked_none [] 0 balls (by simp)).symm
  | cons k rest ih =>
    intro h balls
    have hk : ∀ j ∈ rest, j < k := fun j hj => (List.pairwise_cons.mp h).1 j hj
    have hrest := (List.pairwise_cons.mp h).2
    have hstep : remove_indices balls (k :: rest) =
        remove_indices (if k < balls.length then balls.eraseIdx k else balls) rest := rfl
    rw [hstep]
    by_cases hin : k < balls.length
    · rw [if_pos hin, ih hrest]
      have := erase_marked_eraseIdx k rest hk balls 0 (Nat.zero_le k)
        (by rw [Nat.sub_zero]; exact hin)
      rw [Nat.sub_zero] at this
      exact this
    · rw [if_neg hin, ih hrest,
        erase_marked_drop_ge k rest 0 balls (by omega)]

theorem erase_marked_collide (p : Player) :
    ∀ (i : ℕ) (balls : List Food),
      erase_marked (collide_marks p i balls) i balls =
        balls.filter fun b => !(p.is_colliding_food b) := by
  intro i balls
  induction balls generalizing i with
  | nil => rfl
  | cons b rest ih =>
    by_cases hcol : p.is_colliding_food b = true
    · have hmark : collide_marks p i (b :: rest) = i :: collide_marks p (i + 1) rest := by
        simp only [collide_marks, if_pos hcol]
      rw [hmark]
      have hmem : i ∈ i :: collide_marks p (i + 1) rest := List.mem_cons_self _ _
      show (if i ∈ i :: collide_marks p (i + 1) rest then
          erase_marked (i :: collide_marks p (i + 1) rest) (i + 1) rest
        else b :: erase_marked (i :: collide_marks p (i + 1) rest) (i + 1) rest) = _
      rw [if_pos hmem, erase_marked_drop_lt i _ (i + 1) rest (by omega), ih (i + 1)]
      simp [List.filter_cons, hcol]
    · have hmark : collide_marks p i (b :: rest) = collide_marks p (i + 1) rest := by
        simp only [collide_marks, if_neg hcol]
      rw [hmark]
      have hnot : i ∉ collide_marks p (i + 1) rest := by
        intro hmem
        have := collide_marks_ge p (i + 1) rest i hmem
        omega
      show (if i ∈ collide_marks p (i + 1) rest then
          erase_marked (collide_marks p (i + 1) rest) (i + 1) rest
        else b :: erase_marked (collide_marks p (i + 1) rest) (i + 1) rest) = _
      rw [if_neg hnot, ih (i + 1)]
      have hcol2 : p.is_colliding_food b = false := by
        cases hb : p.is_colliding_food b
        · rfl
        · exact absurd hb hcol
      simp [List.filter_cons, hcol2]

theorem erase_marked_mem_congr (idxs1 idxs2 : List ℕ) (hcong : ∀ j, j ∈ idxs1 ↔ j ∈ idxs2) :
    ∀ (s : ℕ) (balls : List Food), erase_marked idxs1 s balls = erase_marked idxs2 s balls := by
  intro s balls
  induction balls generalizing s with
  | nil => rfl
  | cons b rest ih =>
    simp only [erase_marked]
    rw [if_congr (hcong s) rfl rfl]
    by_cases hm : s ∈ idxs2
    · rw [if_pos hm, if_pos hm, ih (s + 1)]
    · rw [if_neg hm, if_neg hm, ih (s + 1)]

/-- Amended C5: for a player and any food list, `check_collision` adds the
growth amount to the score once per food the player collides with in the
complete-containment sense (`player.is_colliding(ball)` with its default flag)
— not the simple-overlap sense — and the surviving foods are exactly those not
so contained, in their original order: the descending-index batch deletion
removes exactly the marked original indices without shifting the others. -/
theorem check_collision_single (growth : ℚ) (p : Player) (balls : List Food) :
    check_collision growth [p] balls =
      ([{ p with score := p.score +
          growth * ((balls.filter fun b => p.is_colliding_food b).length : ℚ) }],
       balls.filter fun b => !(p.is_colliding_food b)) := by
  have hscan := scan_balls_spec growth balls p 0 [] (by intro j hj; simp at hj)
  simp only [check_collision, List.foldl_cons, List.foldl_nil, hscan, List.nil_append]
  refine Prod.ext rfl ?_
  show remove_indices balls (sort_desc (collide_marks p 0 balls)) = _
  rw [sort_desc_asc _ (collide_marks_pairwise p 0 balls),
    remove_indices_desc _ (by
      rw [List.pairwise_reverse]
      exact collide_marks_pairwise p 0 balls) balls,
    erase_marked_mem_congr _ (collide_marks p 0 balls)
      (fun j => List.mem_reverse) 0 balls,
    erase_marked_collide p 0 balls]

/-- Witness for C10: with one registered player (id 1), the unknown skill name
"warp" and a skill request from the unregistered id 2 both leave the state
unchanged. -/
theorem use_skill_frame_witness :
    use_skill [(1, mk_player 0 0 5 0)] [] 1 "warp" 0 5 5 = ([(1, mk_player 0 0 5 0)], []) ∧
    use_skill [(1, mk_player 0 0 5 0)] [] 2 "push" 0 5 5 = ([(1, mk_player 0 0 5 0)], []) :=
  ⟨(use_skill_frame [(1, mk_player 0 0 5 0)] [] 1 "warp" 0 5 5).1
      (by decide) (by decide),
   (use_skill_frame [(1, mk_player 0 0 5 0)] [] 2 "push" 0 5 5).2
      (by intro kv hkv
          simp only [List.mem_singleton] at hkv
          subst hkv
          decide)⟩
